import Mathlib

/-!
Verification of the asami ASCII-art generator core
(`src/components/Generator.tsx`).

The image-to-glyph pipeline of the source file is shallowly embedded below:
pure JavaScript functions become Lean functions.  JavaScript `number`
arithmetic that is exact on the values actually reached (small integers and
finite decimal literals) is modelled over `ℚ`; the transcendental parts
(`Math.exp`, `Math.sqrt`, `Math.atan2`, `Math.PI`) are modelled over `ℝ`.
Typed-array stores (`Uint8Array`, `Uint8ClampedArray`) are modelled by the
explicit conversions `jsToUint8` / `toUint8Clamped` below, following the
ECMAScript conversion algorithms.
-/

set_option maxRecDepth 10000

/-- JavaScript `Math.round`: round half towards positive infinity. -/
def jsRound (q : ℚ) : ℤ := ⌊q + 1/2⌋

/-- JavaScript truncation towards zero (the first step of `ToUint8`). -/
noncomputable def jsTrunc (x : ℝ) : ℤ := if 0 ≤ x then ⌊x⌋ else ⌈x⌉

/-- ECMAScript `ToUint8`, applied on every store into a `Uint8Array`:
truncate towards zero, then reduce modulo 2^8. -/
noncomputable def jsToUint8 (x : ℝ) : ℕ := ((jsTrunc x) % 256).toNat

/-- The JavaScript remainder operator `%` on numbers: the result has the
sign of the dividend and `a = b * trunc(a / b) + a % b`. -/
noncomputable def jsMod (a b : ℝ) : ℝ := a - b * ((jsTrunc (a / b) : ℤ) : ℝ)

/-- ECMAScript `ToUint8Clamp`, applied on every store into a
`Uint8ClampedArray` (`autoBrightnessContrast`'s result): clamp to
`[0, 255]`, then round to the nearest integer, ties to even. -/
def toUint8Clamped (q : ℚ) : ℕ :=
  let c := max 0 (min 255 q)
  let f : ℤ := ⌊c⌋
  let r := c - (f : ℚ)
  (if 1/2 < r then f + 1 else if r < 1/2 then f else if f % 2 = 0 then f else f + 1).toNat

/-- A decoded RGBA image: `data` is the row-major byte sequence of
`ImageData.data`, four bytes (R, G, B, A) per pixel, each in `[0, 255]`.
Well-formedness (`data.length = 4 * width * height`) is a caller contract
and is taken as a hypothesis where needed. -/
structure PixelBuffer where
  width : ℕ
  height : ℕ
  data : List ℕ

/-- The `Settings` record of the source component.  `brightness` is the
brightness multiplier (a finite decimal in the UI, hence exactly a
rational); `sigma1`/`sigma2` feed the Gaussian kernels. -/
structure Settings where
  blockSize : ℕ
  brightness : ℚ
  autoAdjust : Bool
  detectEdges : Bool
  color : Bool
  invertColor : Bool
  asciiChars : List Char
  sigma1 : ℝ
  sigma2 : ℝ

/-- `gray = Math.round(0.299 * r + 0.587 * g + 0.114 * b)`, the per-pixel
body of `rgbToGrayscale` (the decimal literals are exact rationals). -/
def grayVal (r g b : ℕ) : ℕ :=
  (jsRound ((299 : ℚ)/1000 * r + (587 : ℚ)/1000 * g + (114 : ℚ)/1000 * b)).toNat

/-- `rgbToGrayscale`: the `width * height` luminance samples, entry `p`
computed from bytes `4p`, `4p+1`, `4p+2` of the RGBA data (the source
loops over `data` in steps of 4 writing `gray[i / 4]`). -/
def rgbToGrayscale (buf : PixelBuffer) : List ℕ :=
  (List.range (buf.width * buf.height)).map fun p =>
    grayVal (buf.data.getD (4*p) 0) (buf.data.getD (4*p+1) 0) (buf.data.getD (4*p+2) 0)

/-- The 256-bin luminance histogram of `autoBrightnessContrast`
(`histogram[gray[i]]++` over an array initialised to zeros). -/
def histogramOf (buf : PixelBuffer) : List ℕ :=
  (rgbToGrayscale buf).foldl (fun h g => h.set g (h.getD g 0 + 1)) (List.replicate 256 0)

/-- The cumulative histogram (`accumulator[i] = accumulator[i-1] + histogram[i]`). -/
def accumulatorOf (buf : PixelBuffer) : List ℕ :=
  ((histogramOf buf).scanl (· + ·) 0).tail

/-- `accumulator[255]`, the total pixel count `max` of the source. -/
def totalMassOf (buf : PixelBuffer) : ℕ := (accumulatorOf buf).getD 255 0

/-- `clipHistCount = Math.floor((max * clipPercent) / 100 / 2)` with
`clipPercent = 1`; exact as natural division since the float quotients
cannot straddle an integer here. -/
def clipHistCountOf (buf : PixelBuffer) : ℕ := totalMassOf buf * 1 / 100 / 2

/-- The `while (accumulator[minGray] < clipHistCount) minGray++` loop:
the smallest bin whose cumulative count reaches the clip threshold
(`findIdx` returns 256, one past the last bin, if the loop runs off the
array, exactly as the JS loop stops on `undefined < n` being false). -/
def minGrayOf (buf : PixelBuffer) : ℕ :=
  (accumulatorOf buf).findIdx fun a => clipHistCountOf buf ≤ a

/-- The `while (accumulator[maxGray] >= max - clipHistCount) maxGray--`
loop, scanning down from 255; it can underflow to `-1` (the JS loop stops
on `undefined >= n` being false), hence the result is an integer. -/
def maxGrayOf (buf : PixelBuffer) : ℤ :=
  255 - ((accumulatorOf buf).reverse.findIdx fun a =>
    a < totalMassOf buf - clipHistCountOf buf : ℕ)

/-- `alpha = 255 / (maxGray - minGray)`.  NOTE: the source divides
unconditionally; when `maxGray = minGray` JavaScript produces `Infinity`
here, which this total `ℚ` model cannot represent (it yields 0) — the
divergence is exactly the subject of the degenerate-histogram claim. -/
def alphaOf (buf : PixelBuffer) : ℚ :=
  255 / ((maxGrayOf buf : ℚ) - (minGrayOf buf : ℚ))

/-- `beta = -minGray * alpha`. -/
def betaOf (buf : PixelBuffer) : ℚ := -(minGrayOf buf : ℚ) * alphaOf buf

/-- `autoBrightnessContrast`: apply `out = in * alpha + beta` to every byte
of the RGBA data (all four channels, the alpha channel included) and store
through a `Uint8ClampedArray`. -/
def autoBrightnessContrast (buf : PixelBuffer) : PixelBuffer :=
  { width := buf.width
    height := buf.height
    data := buf.data.map fun (v : ℕ) => toUint8Clamped ((v : ℚ) * alphaOf buf + betaOf buf) }

/-- The unnormalised Gaussian taps: `size = Math.ceil(6 * sigma)` samples
`exp(-(i - size/2)^2 / (2 sigma^2))` (`half = size / 2` is float division
in the source, so the centre may be a half-integer). -/
noncomputable def gaussianUnnorm (sigma : ℝ) : List ℝ :=
  (List.range ((⌈(6 : ℝ) * sigma⌉).toNat)).map fun (i : ℕ) =>
    Real.exp (-((((i : ℕ) : ℝ) - (((⌈(6 : ℝ) * sigma⌉).toNat : ℕ) : ℝ)/2)^2) / (2 * sigma^2))

/-- `gaussianKernel`: the taps divided by their sum. -/
noncomputable def gaussianKernel (sigma : ℝ) : List ℝ :=
  (gaussianUnnorm sigma).map (· / (gaussianUnnorm sigma).sum)

/-- One sample of the horizontal blur pass: out-of-bounds taps are
skipped (contribute nothing), not clamped or zero-padded. -/
noncomputable def blurHorizSum (buf : PixelBuffer) (sigma : ℝ) (x y : ℕ) : ℝ :=
  let kernel := gaussianKernel sigma
  let half := kernel.length / 2
  ∑ i ∈ Finset.range kernel.length,
    (let ix : ℤ := (x : ℤ) + (i : ℤ) - (half : ℤ)
     if 0 ≤ ix ∧ ix < (buf.width : ℤ) then
       ((rgbToGrayscale buf).getD (y * buf.width + ix.toNat) 0 : ℝ) * kernel.getD i 0
     else 0)

/-- The `temp` array of `applyGaussianBlur`: the horizontal pass stored
through a `Uint8Array` (integer truncation between the passes). -/
noncomputable def blurTemp (buf : PixelBuffer) (sigma : ℝ) (x y : ℕ) : ℕ :=
  jsToUint8 (blurHorizSum buf sigma x y)

/-- One sample of the vertical blur pass over `temp`. -/
noncomputable def blurVertSum (buf : PixelBuffer) (sigma : ℝ) (x y : ℕ) : ℝ :=
  let kernel := gaussianKernel sigma
  let half := kernel.length / 2
  ∑ i ∈ Finset.range kernel.length,
    (let iy : ℤ := (y : ℤ) + (i : ℤ) - (half : ℤ)
     if 0 ≤ iy ∧ iy < (buf.height : ℤ) then
       (blurTemp buf sigma x iy.toNat : ℝ) * kernel.getD i 0
     else 0)

/-- `applyGaussianBlur` at pixel `(x, y)`: the vertical pass stored
through the result `Uint8Array`. -/
noncomputable def applyGaussianBlur (buf : PixelBuffer) (sigma : ℝ) (x y : ℕ) : ℕ :=
  jsToUint8 (blurVertSum buf sigma x y)

/-- `differenceOfGaussians` at linear index `p` (`x = p % width`,
`y = p / width`): `blur(sigma1) - blur(sigma2)`, offset by `+128`,
clamped to `[0, 255]` by `Math.max(0, Math.min(255, diff + 128))`, and
stored through a `Uint8Array`. -/
noncomputable def differenceOfGaussians (buf : PixelBuffer) (st : Settings) (p : ℕ) : ℕ :=
  let x := p % buf.width
  let y := p / buf.width
  let diff : ℤ := (applyGaussianBlur buf st.sigma1 x y : ℤ) - (applyGaussianBlur buf st.sigma2 x y : ℤ)
  ((max 0 (min 255 (diff + 128))) % 256).toNat

/-- Per-pixel gradient magnitude and direction, index-aligned with the
luminance field. -/
structure GradientField where
  magnitude : ℕ → ℝ
  direction : ℕ → ℝ

/-- JavaScript `Math.atan2(y, x)`, range `(-π, π]`: the argument of the
complex number `x + y i` (`atan2(0, 0) = 0 = Complex.arg 0`). -/
noncomputable def jsAtan2 (y x : ℝ) : ℝ := Complex.arg ⟨x, y⟩

/-- The Sobel `Gx` kernel. -/
def sobelGx : List (List ℤ) := [[-1, 0, 1], [-2, 0, 2], [-1, 0, 1]]

/-- The Sobel `Gy` kernel. -/
def sobelGy : List (List ℤ) := [[-1, -2, -1], [0, 0, 0], [1, 2, 1]]

/-- The 3x3 Sobel convolution sum at `(x, y)` for kernel `k`.  Only used
for `1 ≤ x, y`, where the natural subtractions below are exact. -/
def sobelSum (grayData : ℕ → ℕ) (w : ℕ) (k : List (List ℤ)) (x y : ℕ) : ℤ :=
  ∑ i ∈ Finset.range 3, ∑ j ∈ Finset.range 3,
    ((k.getD i []).getD j 0) * (grayData ((y + i - 1) * w + (x + j - 1)) : ℤ)

/-- `applySobelFilter`: gradient magnitude `sqrt(gx^2 + gy^2)` and
direction `atan2(gy, gx)` for interior pixels; border pixels stay at the
zero the `Float32Array`s were initialised with. -/
noncomputable def applySobelFilter (grayData : ℕ → ℕ) (w h : ℕ) : GradientField :=
  { magnitude := fun p =>
      let x := p % w
      let y := p / w
      if 1 ≤ x ∧ x + 1 < w ∧ 1 ≤ y ∧ y + 1 < h then
        Real.sqrt ((sobelSum grayData w sobelGx x y : ℝ)^2 + (sobelSum grayData w sobelGy x y : ℝ)^2)
      else 0
    direction := fun p =>
      let x := p % w
      let y := p / w
      if 1 ≤ x ∧ x + 1 < w ∧ 1 ≤ y ∧ y + 1 < h then
        jsAtan2 (sobelSum grayData w sobelGy x y : ℝ) (sobelSum grayData w sobelGx x y : ℝ)
      else 0 }

/-- The cyclic direction table of `getEdgeChar`. -/
def edgeCharTable : List Char := ['-', '\\', '|', '/', '-', '\\', '|', '/']

/-- `getEdgeChar`: `null` (here `none`) below the magnitude threshold 50;
otherwise index `Math.floor(((angle + 22.5) % 180) / 45)` into the table,
with `angle = (direction + π) * 180 / π`.  An out-of-range index reads
`undefined` in JavaScript, which the caller treats exactly like `null`;
both are modelled as `none`. -/
noncomputable def getEdgeChar (magnitude direction : ℝ) : Option Char :=
  if magnitude < 50 then none
  else
    let angle := (direction + Real.pi) * (180 / Real.pi)
    let index : ℤ := ⌊(jsMod (angle + 22.5) 180) / 45⌋
    if index < 0 then none else edgeCharTable[index.toNat]?

/-- The per-block accumulator of `calculateBlockInfo`. -/
structure BlockInfo where
  sumBrightness : ℕ
  sumR : ℕ
  sumG : ℕ
  sumB : ℕ
  pixelCount : ℕ
  sumMag : ℝ
  sumDir : ℝ

/-- The body of the double loop of `calculateBlockInfo` for offset
`(dx, dy)` inside the block at `(x, y)`: skip the pixel if the defensive
bound check fires, otherwise accumulate. -/
noncomputable def blockStep (buf : PixelBuffer) (st : Settings)
    (edgeData : Option GradientField) (x y dy dx : ℕ) (acc : BlockInfo) : BlockInfo :=
  let ix := x + dx
  let iy := y + dy
  let i := (iy * buf.width + ix) * 4
  if buf.width ≤ ix ∨ buf.height ≤ iy ∨ buf.data.length ≤ i + 2 then acc
  else
    let r := buf.data.getD i 0
    let g := buf.data.getD (i+1) 0
    let b := buf.data.getD (i+2) 0
    { sumBrightness := acc.sumBrightness + grayVal r g b
      sumR := acc.sumR + (if st.color then r else 0)
      sumG := acc.sumG + (if st.color then g else 0)
      sumB := acc.sumB + (if st.color then b else 0)
      pixelCount := acc.pixelCount + 1
      sumMag := acc.sumMag +
        (match st.detectEdges, edgeData with
         | true, some e => e.magnitude (iy * buf.width + ix)
         | _, _ => 0)
      sumDir := acc.sumDir +
        (match st.detectEdges, edgeData with
         | true, some e => e.direction (iy * buf.width + ix)
         | _, _ => 0) }

/-- `calculateBlockInfo`: block extent `min(blockSize, width - x)` by
`min(blockSize, height - y)` (edge blocks truncated), double loop over
the block accumulating into a fresh zero accumulator. -/
noncomputable def calculateBlockInfo (buf : PixelBuffer) (st : Settings)
    (edgeData : Option GradientField) (x y : ℕ) : BlockInfo :=
  let blockW := min st.blockSize (buf.width - x)
  let blockH := min st.blockSize (buf.height - y)
  (List.range blockH).foldl
    (fun acc dy => (List.range blockW).foldl
      (fun acc dx => blockStep buf st edgeData x y dy dx acc) acc)
    ⟨0, 0, 0, 0, 0, 0, 0⟩

/-- `selectAsciiChar`.  For a nonempty block every JavaScript float step
is exact: `avg = Math.floor(sum / count)` is natural division,
`boosted = Math.floor(avg * brightness)` is a rational floor, the clamp is
on integers, and `charIndex = Math.floor(clamped * len / 256)` is natural
division again.  (For an empty block JavaScript propagates `NaN` where
this model divides by zero; no claim concerns empty blocks.) -/
noncomputable def selectAsciiChar (bi : BlockInfo) (st : Settings) : Char :=
  let avgBrightness := bi.sumBrightness / bi.pixelCount
  let boostedBrightness := ⌊(avgBrightness : ℚ) * st.brightness⌋
  let clampedBrightness := max 0 (min 255 boostedBrightness)
  let edgeChar : Option Char :=
    if st.detectEdges then
      getEdgeChar (bi.sumMag / (bi.pixelCount : ℝ)) (bi.sumDir / (bi.pixelCount : ℝ))
    else none
  match edgeChar with
  | some c => c
  | none =>
    if clampedBrightness = 0 then ' '
    else
      let charIndex := clampedBrightness.toNat * st.asciiChars.length / 256
      st.asciiChars.getD (min charIndex (st.asciiChars.length - 1)) ' '

/-- `calculateAverageColor`: white when color is off, otherwise the
floored per-channel block average, inverted channel-wise on request. -/
def calculateAverageColor (bi : BlockInfo) (st : Settings) : ℕ × ℕ × ℕ :=
  if st.color = false then (255, 255, 255)
  else
    let c := (bi.sumR / bi.pixelCount, bi.sumG / bi.pixelCount, bi.sumB / bi.pixelCount)
    if st.invertColor then (255 - c.1, 255 - c.2.1, 255 - c.2.2) else c

/-- The origins visited by `for (v = 0; v < len; v += blockSize)`:
`0, bs, 2 bs, ...` while below `len` (for positive `blockSize`; the
source would not terminate on `blockSize = 0`). -/
def blockStarts (len bs : ℕ) : List ℕ :=
  (List.range ((len + bs - 1) / bs)).map (· * bs)

/-- `generate`, restricted to its pure output: the newline-terminated
glyph rows accumulated into `newAsciiText`, and the per-block colors
passed to the renderer.  Steps: optional `autoBrightnessContrast`,
optional edge field (difference of Gaussians, then Sobel), then the
block loop. -/
noncomputable def generate (buf : PixelBuffer) (st : Settings) :
    String × List (List (ℕ × ℕ × ℕ)) :=
  let imageData := if st.autoAdjust then autoBrightnessContrast buf else buf
  let edgeData : Option GradientField :=
    if st.detectEdges then
      some (applySobelFilter (differenceOfGaussians imageData st) imageData.width imageData.height)
    else none
  let rows := (blockStarts buf.height st.blockSize).map fun y =>
    (blockStarts buf.width st.blockSize).map fun x =>
      let blockInfo := calculateBlockInfo imageData st edgeData x y
      (selectAsciiChar blockInfo st, calculateAverageColor blockInfo st)
  (String.join (rows.map fun row => String.mk (row.map Prod.fst) ++ "\n"),
   rows.map fun row => row.map Prod.snd)

/-! ### Concrete inputs used by witnesses and counterexamples -/

/-- A uniform opaque black 16x16 RGBA image (end-to-end scenario A). -/
def black16 : PixelBuffer := ⟨16, 16, (List.replicate 256 [0, 0, 0, 255]).flatten⟩

/-- Scenario A settings: blockSize 8, brightness 1, autoAdjust, detectEdges,
color and invertColor all off, the default glyph ramp, default sigmas. -/
noncomputable def scenarioASettings : Settings :=
  ⟨8, 1, false, false, false, false, " .:-=+*#%@".toList, 1/2, 1⟩

/-- A 4x4 all-zero RGBA buffer, a concrete well-formed input. -/
def buf4x4 : PixelBuffer := ⟨4, 4, List.replicate 64 0⟩

/-- Plain settings with blockSize 3 used by several witnesses. -/
noncomputable def witnessSettings : Settings :=
  ⟨3, 1, false, false, false, false, [' '], 1, 1⟩

/-- A 2x1 image holding one pixel of RGB (0,0,0) and one of RGB (1,1,1):
its clipped histogram bounds collapse (`maxGray = minGray = 0`). -/
def degenerateBuf : PixelBuffer := ⟨2, 1, [0, 0, 0, 255, 1, 1, 1, 255]⟩

/-- A 1x1 image with RGB (100,100,100) and alpha byte 10: the contrast
stretch maps the alpha byte 10 to 26. -/
def alphaProbeBuf : PixelBuffer := ⟨1, 1, [100, 100, 100, 10]⟩

/-- Block statistics with average brightness 255 over a single pixel. -/
noncomputable def brightBlock : BlockInfo := ⟨255, 0, 0, 0, 1, 0, 0⟩

/-- Settings with a 257-glyph ramp: 256 copies of `a` followed by one `b`. -/
noncomputable def longRampSettings : Settings :=
  ⟨8, 1, false, false, false, false, List.replicate 256 'a' ++ ['b'], 1, 1⟩

/-- Edge-detection settings for the glyph-selector witnesses. -/
noncomputable def edgeSettings : Settings :=
  ⟨8, 1, false, true, false, false, " .:-=+*#%@".toList, 1/2, 1⟩

/-- A one-pixel block with zero gradient sums. -/
noncomputable def flatBlock : BlockInfo := ⟨0, 0, 0, 0, 1, 0, 0⟩

/-! ### Helper lemmas -/

/-- The grayscale formula as exact natural arithmetic:
`round(0.299 r + 0.587 g + 0.114 b) = (299 r + 587 g + 114 b + 500) / 1000`. -/
theorem grayVal_eq (r g b : ℕ) : grayVal r g b = (299*r + 587*g + 114*b + 500) / 1000 := by
  unfold grayVal jsRound
  have h : (299 : ℚ)/1000 * r + (587 : ℚ)/1000 * g + (114 : ℚ)/1000 * b + 1/2 =
      ((299*r + 587*g + 114*b + 500 : ℕ) : ℚ) / ((1000 : ℕ) : ℚ) := by
    push_cast; ring
  rw [h, Rat.floor_natCast_div_natCast]
  omega

/-- `foldl` of a step that adds a fixed amount `d` to the measure `g`
adds `l.length * d` in total. -/
theorem foldl_count_add {α β : Type} (g : β → ℕ) (d : ℕ) (f : β → α → β) :
    ∀ l : List α, (∀ acc v, v ∈ l → g (f acc v) = g acc + d) →
      ∀ acc, g (l.foldl f acc) = g acc + l.length * d := by
  intro l
  induction l with
  | nil => intro _ acc; simp
  | cons v t ih =>
    intro h acc
    simp only [List.foldl_cons, List.length_cons]
    rw [ih (fun a w hw => h a w (List.mem_cons_of_mem _ hw)) (f acc v),
      h acc v (List.mem_cons_self _ _)]
    ring

/-- When the defensive bound check does not fire, `blockStep` counts
exactly one pixel. -/
theorem blockStep_pixelCount (buf : PixelBuffer) (st : Settings)
    (edgeData : Option GradientField) (x y dy dx : ℕ) (acc : BlockInfo)
    (hix : x + dx < buf.width) (hiy : y + dy < buf.height)
    (hlen : ((y + dy) * buf.width + (x + dx)) * 4 + 2 < buf.data.length) :
    (blockStep buf st edgeData x y dy dx acc).pixelCount = acc.pixelCount + 1 := by
  unfold blockStep
  rw [if_neg (by push_neg; omega)]

/-- Offsets inside the truncated block extent index inside a well-formed
buffer. -/
theorem block_offset_lt (W H bs x y dx dy : ℕ) (hx : x < W) (hy : y < H)
    (hdx : dx < min bs (W - x)) (hdy : dy < min bs (H - y)) :
    x + dx < W ∧ y + dy < H ∧ ((y + dy) * W + (x + dx)) * 4 + 2 < 4 * W * H := by
  have h1 : x + dx < W := by omega
  have h2 : y + dy < H := by omega
  refine ⟨h1, h2, ?_⟩
  have h3 : (y + dy) * W + (x + dx) < H * W := by
    calc (y + dy) * W + (x + dx) < (y + dy) * W + W := by omega
      _ = ((y + dy) + 1) * W := by ring
      _ ≤ H * W := Nat.mul_le_mul_right W h2
  have h4 : 4 * W * H = 4 * (H * W) := by ring
  omega

/-- C7 core: for a well-formed buffer and an in-range block origin the
aggregator visits every pixel of the truncated extent. -/
theorem calculateBlockInfo_pixelCount (buf : PixelBuffer) (st : Settings)
    (edgeData : Option GradientField) (x y : ℕ)
    (hdata : buf.data.length = 4 * buf.width * buf.height)
    (hx : x < buf.width) (hy : y < buf.height) :
    (calculateBlockInfo buf st edgeData x y).pixelCount =
      min st.blockSize (buf.width - x) * min st.blockSize (buf.height - y) := by
  unfold calculateBlockInfo
  have houter : ∀ acc dy, dy ∈ List.range (min st.blockSize (buf.height - y)) →
      BlockInfo.pixelCount
        ((List.range (min st.blockSize (buf.width - x))).foldl
          (fun acc dx => blockStep buf st edgeData x y dy dx acc) acc) =
      BlockInfo.pixelCount acc + min st.blockSize (buf.width - x) := by
    intro acc dy hdy
    rw [List.mem_range] at hdy
    have hinner : ∀ a dx, dx ∈ List.range (min st.blockSize (buf.width - x)) →
        BlockInfo.pixelCount (blockStep buf st edgeData x y dy dx a) =
          BlockInfo.pixelCount a + 1 := by
      intro a dx hdx
      rw [List.mem_range] at hdx
      obtain ⟨hb1, hb2, hb3⟩ := block_offset_lt buf.width buf.height st.blockSize x y dx dy hx hy hdx hdy
      exact blockStep_pixelCount buf st edgeData x y dy dx a hb1 hb2 (by omega)
    rw [foldl_count_add BlockInfo.pixelCount 1 _ _ hinner acc]
    simp
  rw [foldl_count_add BlockInfo.pixelCount (min st.blockSize (buf.width - x)) _ _ houter]
  simp [Nat.mul_comm]

/-- Dividing every list entry by `s` divides the sum by `s`. -/
theorem list_sum_map_div (l : List ℝ) (s : ℝ) : (l.map (· / s)).sum = l.sum / s := by
  induction l with
  | nil => simp
  | cons a t ih => simp [ih, add_div]

/-- The unnormalised Gaussian has `ceil(6 sigma)` taps. -/
theorem gaussianUnnorm_length (sigma : ℝ) :
    (gaussianUnnorm sigma).length = (⌈(6:ℝ) * sigma⌉).toNat := by
  rw [gaussianUnnorm, List.length_map, List.length_range]

/-- For positive sigma the unnormalised taps have positive sum. -/
theorem gaussianUnnorm_sum_pos (sigma : ℝ) (hs : 0 < sigma) :
    0 < (gaussianUnnorm sigma).sum := by
  apply List.sum_pos
  · intro x hx
    simp only [gaussianUnnorm, List.mem_map] at hx
    obtain ⟨i, _, rfl⟩ := hx
    exact Real.exp_pos _
  · rw [← List.length_pos, gaussianUnnorm_length]
    have h6 : (0:ℝ) < 6 * sigma := by positivity
    have := Int.ceil_pos.mpr h6
    omega

/-- The JavaScript remainder of a nonnegative dividend by a positive
divisor lies in `[0, divisor)`. -/
theorem jsMod_nonneg_lt (a b : ℝ) (ha : 0 ≤ a) (hb : 0 < b) :
    0 ≤ jsMod a b ∧ jsMod a b < b := by
  have hb0 : b ≠ 0 := ne_of_gt hb
  have hdiv : a / b * b = a := div_mul_cancel₀ a hb0
  unfold jsMod jsTrunc
  rw [if_pos (div_nonneg ha hb.le)]
  constructor
  · have h1 : ((⌊a / b⌋ : ℤ) : ℝ) ≤ a / b := Int.floor_le _
    nlinarith
  · have h1 : a / b < ((⌊a / b⌋ : ℤ) : ℝ) + 1 := Int.lt_floor_add_one _
    nlinarith

/-- With edge detection off, `selectAsciiChar` is the pure ramp lookup. -/
theorem selectAsciiChar_no_edge (bi : BlockInfo) (st : Settings)
    (hne : st.detectEdges = false) :
    selectAsciiChar bi st =
      (if max 0 (min 255 ⌊((bi.sumBrightness / bi.pixelCount : ℕ) : ℚ) * st.brightness⌋) = 0
       then ' '
       else st.asciiChars.getD
         (min ((max 0 (min 255 ⌊((bi.sumBrightness / bi.pixelCount : ℕ) : ℚ) * st.brightness⌋)).toNat *
            st.asciiChars.length / 256) (st.asciiChars.length - 1)) ' ') := by
  simp only [selectAsciiChar, hne, Bool.false_eq_true, if_false]

/-- Floor of a natural number cast times brightness one. -/
theorem floor_natCast_mul_one (n : ℕ) : ⌊((n : ℚ)) * 1⌋ = (n : ℤ) := by
  rw [mul_one, Int.floor_natCast]

/-- The R, G and B bytes of the flattened uniform-black RGBA data are
all zero. -/
theorem blackData_getD (n : ℕ) : ∀ p, p < n →
    ((List.replicate n ([0, 0, 0, 255] : List ℕ)).flatten.getD (p*4) 0 = 0 ∧
     (List.replicate n ([0, 0, 0, 255] : List ℕ)).flatten.getD (p*4+1) 0 = 0 ∧
     (List.replicate n ([0, 0, 0, 255] : List ℕ)).flatten.getD (p*4+2) 0 = 0) := by
  induction n with
  | zero => intro p hp; exact absurd hp (Nat.not_lt_zero p)
  | succ m ih =>
    intro p hp
    rw [List.replicate_succ, List.flatten_cons]
    cases p with
    | zero =>
      refine ⟨?_, ?_, ?_⟩ <;> rw [List.getD_append _ _ _ _ (by decide)] <;> decide
    | succ q =>
      obtain ⟨i0, i1, i2⟩ := ih q (by omega)
      have hl4 : ([0, 0, 0, 255] : List ℕ).length = 4 := rfl
      refine ⟨?_, ?_, ?_⟩
      · rw [List.getD_append_right _ _ _ _
            (show ([0, 0, 0, 255] : List ℕ).length ≤ (q+1)*4 by rw [hl4]; omega), hl4,
          show (q+1)*4 - 4 = q*4 from by omega]
        exact i0
      · rw [List.getD_append_right _ _ _ _
            (show ([0, 0, 0, 255] : List ℕ).length ≤ (q+1)*4+1 by rw [hl4]; omega), hl4,
          show (q+1)*4+1 - 4 = q*4+1 from by omega]
        exact i1
      · rw [List.getD_append_right _ _ _ _
            (show ([0, 0, 0, 255] : List ℕ).length ≤ (q+1)*4+2 by rw [hl4]; omega), hl4,
          show (q+1)*4+2 - 4 = q*4+2 from by omega]
        exact i2

/-- On the uniform black buffer every aggregation step leaves the
brightness sum unchanged. -/
theorem blockStep_black16_sumBrightness (st : Settings)
    (edgeData : Option GradientField) (x y dy dx : ℕ) (acc : BlockInfo) :
    (blockStep black16 st edgeData x y dy dx acc).sumBrightness = acc.sumBrightness := by
  simp only [blockStep]
  split
  · rfl
  · rename_i h
    push_neg at h
    obtain ⟨h1, h2, h3⟩ := h
    have hw : black16.width = 16 := rfl
    have hl : black16.data.length = 1024 := by decide
    rw [hw] at h1
    rw [hw, hl] at h3
    have hp : (y + dy) * 16 + (x + dx) < 256 := by omega
    obtain ⟨e0, e1, e2⟩ := blackData_getD 256 ((y + dy) * 16 + (x + dx)) hp
    dsimp only
    rw [show black16.data = (List.replicate 256 ([0, 0, 0, 255] : List ℕ)).flatten from rfl, hw]
    rw [e0, e1, e2, grayVal_eq]
    omega

/-- On the uniform black buffer every block has brightness sum zero. -/
theorem calculateBlockInfo_black16_sumBrightness (st : Settings)
    (edgeData : Option GradientField) (x y : ℕ) :
    (calculateBlockInfo black16 st edgeData x y).sumBrightness = 0 := by
  unfold calculateBlockInfo
  have hfold : ∀ (l : List ℕ) (f : BlockInfo → ℕ → BlockInfo),
      (∀ a v, v ∈ l → (f a v).sumBrightness = a.sumBrightness) →
      ∀ acc : BlockInfo, (l.foldl f acc).sumBrightness = acc.sumBrightness := by
    intro l f h acc
    have := foldl_count_add BlockInfo.sumBrightness 0 f l
      (fun a v hv => by rw [h a v hv]; rfl) acc
    simpa using this
  rw [hfold _ _ (fun a dy _ => hfold _ _
    (fun b dx _ => blockStep_black16_sumBrightness st edgeData x y dy dx b) a)]

/-- A block with zero brightness sum and no edge detection always selects
the space character (at brightness multiplier 1). -/
theorem selectAsciiChar_zero (bi : BlockInfo) (st : Settings)
    (hne : st.detectEdges = false) (hz : bi.sumBrightness = 0)
    (hbr : st.brightness = 1) : selectAsciiChar bi st = ' ' := by
  have hcl : max 0 (min 255 ⌊((bi.sumBrightness / bi.pixelCount : ℕ) : ℚ) * st.brightness⌋) = 0 := by
    rw [hz, hbr, Nat.zero_div, floor_natCast_mul_one]
    decide
  rw [selectAsciiChar_no_edge bi st hne, if_pos hcl]

/-- Scenario A evaluated: the uniform black 16x16 image at blockSize 8
yields two rows of two spaces, each newline-terminated. -/
theorem generate_black16_text : (generate black16 scenarioASettings).1 = "  \n  \n" := by
  have hbs1 : blockStarts black16.height scenarioASettings.blockSize = [0, 8] := by decide
  have hbs2 : blockStarts black16.width scenarioASettings.blockSize = [0, 8] := by decide
  have hchar : ∀ xx yy : ℕ,
      selectAsciiChar (calculateBlockInfo black16 scenarioASettings none xx yy)
        scenarioASettings = ' ' := fun xx yy =>
    selectAsciiChar_zero _ _ rfl
      (calculateBlockInfo_black16_sumBrightness scenarioASettings none xx yy) rfl
  simp only [generate, show scenarioASettings.autoAdjust = false from rfl,
    show scenarioASettings.detectEdges = false from rfl, Bool.false_eq_true, if_false]
  rw [hbs1, hbs2]
  simp only [List.map_cons, List.map_nil]
  rw [hchar 0 0, hchar 8 0, hchar 0 8, hchar 8 8]
  rfl

/-! ### Claims -/

/-- C2: the pipeline is deterministic: identical buffer and settings give
identical glyph text and identical per-block colors. -/
theorem generate_deterministic (b1 b2 : PixelBuffer) (s1 s2 : Settings)
    (hb : b1 = b2) (hs : s1 = s2) : generate b1 s1 = generate b2 s2 := by
  rw [hb, hs]

/-- Witness for C2 at a concrete buffer and settings. -/
theorem generate_deterministic_witness :
    generate black16 scenarioASettings = generate black16 scenarioASettings :=
  generate_deterministic black16 black16 scenarioASettings scenarioASettings rfl rfl

/-- C7 witness: a 4x4 buffer with blockSize 3 at origin (2,0) counts
`min 3 2 * min 3 4 = 6` pixels. -/
theorem calculateBlockInfo_pixelCount_witness :
    buf4x4.data.length = 4 * buf4x4.width * buf4x4.height ∧
    2 < buf4x4.width ∧ 0 < buf4x4.height ∧
    (calculateBlockInfo buf4x4 witnessSettings none 2 0).pixelCount = 6 := by
  refine ⟨by simp [buf4x4], by simp [buf4x4], by simp [buf4x4], ?_⟩
  have h := calculateBlockInfo_pixelCount buf4x4 witnessSettings none 2 0
    (by simp [buf4x4]) (by simp [buf4x4]) (by simp [buf4x4])
  simpa [buf4x4, witnessSettings] using h

/-- C5: the Gaussian kernel has `ceil(6 sigma)` entries, each the
unnormalised exponential divided by the tap sum, and the entries sum
to 1. -/
theorem gaussianKernel_spec (sigma : ℝ) (hs : 0 < sigma) :
    (gaussianKernel sigma).length = (⌈(6:ℝ) * sigma⌉).toNat ∧
    (∀ i, i < (gaussianKernel sigma).length →
      (gaussianKernel sigma).getD i 0 =
        Real.exp (-(((i:ℝ) - (((⌈(6:ℝ) * sigma⌉).toNat : ℕ) : ℝ)/2)^2) / (2 * sigma^2)) /
          (gaussianUnnorm sigma).sum) ∧
    (gaussianKernel sigma).sum = 1 := by
  refine ⟨?_, ?_, ?_⟩
  · rw [gaussianKernel, List.length_map, gaussianUnnorm_length]
  · intro i hi
    have hi2 : i < ((gaussianUnnorm sigma).map (· / (gaussianUnnorm sigma).sum)).length := by
      rw [gaussianKernel] at hi
      exact hi
    rw [gaussianKernel, List.getD_eq_getElem _ _ hi2, List.getElem_map]
    congr 1
    simp only [gaussianUnnorm, List.getElem_map, List.getElem_range]
  · rw [gaussianKernel, list_sum_map_div,
      div_self (ne_of_gt (gaussianUnnorm_sum_pos sigma hs))]

/-- C5 witness at `sigma = 1`. -/
theorem gaussianKernel_spec_witness :
    (0:ℝ) < 1 ∧
    ((gaussianKernel 1).length = (⌈(6:ℝ) * 1⌉).toNat ∧
    (∀ i, i < (gaussianKernel 1).length →
      (gaussianKernel 1).getD i 0 =
        Real.exp (-(((i:ℝ) - (((⌈(6:ℝ) * 1⌉).toNat : ℕ) : ℝ)/2)^2) / (2 * 1^2)) /
          (gaussianUnnorm 1).sum) ∧
    (gaussianKernel 1).sum = 1) :=
  ⟨one_pos, gaussianKernel_spec 1 one_pos⟩

/-- C6: every difference-of-Gaussians sample is the sigma1-blur minus the
sigma2-blur, offset by 128 and clamped to `[0, 255]`; in particular every
sample lies in `[0, 255]`. -/
theorem differenceOfGaussians_spec (buf : PixelBuffer) (st : Settings) (p : ℕ)
    (_h1 : 0 < st.sigma1) (_h2 : 0 < st.sigma2) :
    (differenceOfGaussians buf st p : ℤ) =
      max 0 (min 255 ((applyGaussianBlur buf st.sigma1 (p % buf.width) (p / buf.width) : ℤ) -
        (applyGaussianBlur buf st.sigma2 (p % buf.width) (p / buf.width) : ℤ) + 128)) ∧
    differenceOfGaussians buf st p ≤ 255 := by
  simp only [differenceOfGaussians]
  omega

/-- C6 witness at a concrete buffer, settings and sample. -/
theorem differenceOfGaussians_spec_witness :
    (0:ℝ) < witnessSettings.sigma1 ∧ (0:ℝ) < witnessSettings.sigma2 ∧
    ((differenceOfGaussians buf4x4 witnessSettings 0 : ℤ) =
      max 0 (min 255 ((applyGaussianBlur buf4x4 witnessSettings.sigma1 (0 % buf4x4.width) (0 / buf4x4.width) : ℤ) -
        (applyGaussianBlur buf4x4 witnessSettings.sigma2 (0 % buf4x4.width) (0 / buf4x4.width) : ℤ) + 128)) ∧
    differenceOfGaussians buf4x4 witnessSettings 0 ≤ 255) := by
  have hs1 : (0:ℝ) < witnessSettings.sigma1 := by simp [witnessSettings]
  have hs2 : (0:ℝ) < witnessSettings.sigma2 := by simp [witnessSettings]
  exact ⟨hs1, hs2, differenceOfGaussians_spec buf4x4 witnessSettings 0 hs1 hs2⟩

/-- C10: for any direction in `(-π, π]` and magnitude at or above the
threshold, the bucket index `floor(((angle + 22.5) mod 180) / 45)` lies in
`{0, 1, 2, 3}`, the table lookup is in bounds (only the first four entries
are reachable), and the glyph is one of the four directional characters. -/
theorem getEdgeChar_bucket (mag dir : ℝ) (hm : 50 ≤ mag)
    (hlo : -Real.pi < dir) (_hhi : dir ≤ Real.pi) :
    0 ≤ ⌊(jsMod ((dir + Real.pi) * (180 / Real.pi) + 22.5) 180) / 45⌋ ∧
    ⌊(jsMod ((dir + Real.pi) * (180 / Real.pi) + 22.5) 180) / 45⌋ < 4 ∧
    getEdgeChar mag dir =
      edgeCharTable[(⌊(jsMod ((dir + Real.pi) * (180 / Real.pi) + 22.5) 180) / 45⌋).toNat]? ∧
    ∃ c, getEdgeChar mag dir = some c ∧ (c = '-' ∨ c = '\\' ∨ c = '|' ∨ c = '/') := by
  have hpi := Real.pi_pos
  have hangle : (0:ℝ) ≤ (dir + Real.pi) * (180 / Real.pi) + 22.5 := by
    have h1 : 0 < dir + Real.pi := by linarith
    have h2 : 0 < 180 / Real.pi := by positivity
    nlinarith
  obtain ⟨hm0, hm1⟩ := jsMod_nonneg_lt _ 180 hangle (by norm_num)
  have hq0 : (0:ℝ) ≤ jsMod ((dir + Real.pi) * (180 / Real.pi) + 22.5) 180 / 45 := by positivity
  have hq1 : jsMod ((dir + Real.pi) * (180 / Real.pi) + 22.5) 180 / 45 < 4 := by
    rw [div_lt_iff₀ (by norm_num : (0:ℝ) < 45)]
    linarith
  have hidx0 : 0 ≤ ⌊jsMod ((dir + Real.pi) * (180 / Real.pi) + 22.5) 180 / 45⌋ :=
    Int.floor_nonneg.mpr hq0
  have hidx1 : ⌊jsMod ((dir + Real.pi) * (180 / Real.pi) + 22.5) 180 / 45⌋ < 4 :=
    Int.floor_lt.mpr (by exact_mod_cast hq1)
  refine ⟨hidx0, hidx1, ?_, ?_⟩
  · simp only [getEdgeChar]
    rw [if_neg (not_lt.mpr hm), if_neg (not_lt.mpr hidx0)]
  · simp only [getEdgeChar]
    rw [if_neg (not_lt.mpr hm), if_neg (not_lt.mpr hidx0)]
    have h03 : (⌊jsMod ((dir + Real.pi) * (180 / Real.pi) + 22.5) 180 / 45⌋).toNat = 0 ∨
        (⌊jsMod ((dir + Real.pi) * (180 / Real.pi) + 22.5) 180 / 45⌋).toNat = 1 ∨
        (⌊jsMod ((dir + Real.pi) * (180 / Real.pi) + 22.5) 180 / 45⌋).toNat = 2 ∨
        (⌊jsMod ((dir + Real.pi) * (180 / Real.pi) + 22.5) 180 / 45⌋).toNat = 3 := by
      omega
    rcases h03 with h | h | h | h <;> rw [h]
    · exact ⟨'-', by decide, by decide⟩
    · exact ⟨'\\', by decide, by decide⟩
    · exact ⟨'|', by decide, by decide⟩
    · exact ⟨'/', by decide, by decide⟩

/-- C10 witness at magnitude 50 and direction 0. -/
theorem getEdgeChar_bucket_witness :
    (50:ℝ) ≤ 50 ∧ -Real.pi < (0:ℝ) ∧ (0:ℝ) ≤ Real.pi ∧
    (0 ≤ ⌊(jsMod (((0:ℝ) + Real.pi) * (180 / Real.pi) + 22.5) 180) / 45⌋ ∧
    ⌊(jsMod (((0:ℝ) + Real.pi) * (180 / Real.pi) + 22.5) 180) / 45⌋ < 4 ∧
    getEdgeChar 50 0 =
      edgeCharTable[(⌊(jsMod (((0:ℝ) + Real.pi) * (180 / Real.pi) + 22.5) 180) / 45⌋).toNat]? ∧
    ∃ c, getEdgeChar 50 0 = some c ∧ (c = '-' ∨ c = '\\' ∨ c = '|' ∨ c = '/')) :=
  ⟨le_refl 50, neg_lt_zero.mpr Real.pi_pos, Real.pi_pos.le,
    getEdgeChar_bucket 50 0 (le_refl 50) (neg_lt_zero.mpr Real.pi_pos) Real.pi_pos.le⟩

/-- C9: with edge detection on, the selector uses the block-averaged
gradient magnitude and direction; below the threshold 50 there is no
override (the result is the plain ramp glyph), and whenever the mapping
yields a directional glyph it is returned immediately. -/
theorem selectAsciiChar_edge (bi : BlockInfo) (st : Settings)
    (hd : st.detectEdges = true) (_hc : 0 < bi.pixelCount) :
    (bi.sumMag / (bi.pixelCount : ℝ) < 50 →
      getEdgeChar (bi.sumMag / (bi.pixelCount : ℝ)) (bi.sumDir / (bi.pixelCount : ℝ)) = none ∧
      selectAsciiChar bi st = selectAsciiChar bi { st with detectEdges := false }) ∧
    (∀ c, getEdgeChar (bi.sumMag / (bi.pixelCount : ℝ)) (bi.sumDir / (bi.pixelCount : ℝ)) = some c →
      selectAsciiChar bi st = c) := by
  constructor
  · intro hlt
    have hnone : getEdgeChar (bi.sumMag / (bi.pixelCount : ℝ)) (bi.sumDir / (bi.pixelCount : ℝ)) = none := by
      simp only [getEdgeChar]
      rw [if_pos hlt]
    refine ⟨hnone, ?_⟩
    simp only [selectAsciiChar, hd, if_true, hnone]
    rfl
  · intro c hsome
    simp only [selectAsciiChar, hd, if_true, hsome]

/-- C9 witness at a one-pixel block with zero gradient sums. -/
theorem selectAsciiChar_edge_witness :
    edgeSettings.detectEdges = true ∧ 0 < flatBlock.pixelCount ∧
    ((flatBlock.sumMag / (flatBlock.pixelCount : ℝ) < 50 →
      getEdgeChar (flatBlock.sumMag / (flatBlock.pixelCount : ℝ))
        (flatBlock.sumDir / (flatBlock.pixelCount : ℝ)) = none ∧
      selectAsciiChar flatBlock edgeSettings =
        selectAsciiChar flatBlock { edgeSettings with detectEdges := false }) ∧
    (∀ c, getEdgeChar (flatBlock.sumMag / (flatBlock.pixelCount : ℝ))
        (flatBlock.sumDir / (flatBlock.pixelCount : ℝ)) = some c →
      selectAsciiChar flatBlock edgeSettings = c)) :=
  ⟨rfl, Nat.one_pos, selectAsciiChar_edge flatBlock edgeSettings rfl Nat.one_pos⟩

/-- C8 (amended): with no edge override and a nonempty block, clamped
boosted brightness 0 yields the space character, and average brightness
255 at multiplier 1 yields `ramp[N-1]` for every ramp length `N ≤ 256`
(for `N > 256` the selector returns `ramp[floor(255 N / 256)]` instead). -/
theorem selectAsciiChar_endpoints (bi : BlockInfo) (st : Settings)
    (hne : st.detectEdges = false) (_hc : 0 < bi.pixelCount) :
    (max 0 (min 255 ⌊((bi.sumBrightness / bi.pixelCount : ℕ) : ℚ) * st.brightness⌋) = 0 →
      selectAsciiChar bi st = ' ') ∧
    (bi.sumBrightness / bi.pixelCount = 255 → st.brightness = 1 →
      0 < st.asciiChars.length → st.asciiChars.length ≤ 256 →
      selectAsciiChar bi st = st.asciiChars.getD (st.asciiChars.length - 1) ' ') := by
  constructor
  · intro h0
    rw [selectAsciiChar_no_edge bi st hne, if_pos h0]
  · intro havg hbr hlen hle
    rw [selectAsciiChar_no_edge bi st hne, havg, hbr, floor_natCast_mul_one]
    rw [if_neg (by decide)]
    congr 1
    have ht : (max 0 (min 255 ((255 : ℕ) : ℤ))).toNat = 255 := by decide
    rw [ht]
    omega

/-- C8 witness: a single-pixel block of brightness 255 with the default
10-glyph ramp selects the last ramp glyph, and a zero block selects the
space character. -/
theorem selectAsciiChar_endpoints_witness :
    scenarioASettings.detectEdges = false ∧ 0 < brightBlock.pixelCount ∧
    brightBlock.sumBrightness / brightBlock.pixelCount = 255 ∧
    scenarioASettings.brightness = 1 ∧
    0 < scenarioASettings.asciiChars.length ∧ scenarioASettings.asciiChars.length ≤ 256 ∧
    selectAsciiChar brightBlock scenarioASettings =
      scenarioASettings.asciiChars.getD (scenarioASettings.asciiChars.length - 1) ' ' := by
  refine ⟨rfl, Nat.one_pos, rfl, rfl, by decide, by decide, ?_⟩
  exact (selectAsciiChar_endpoints brightBlock scenarioASettings rfl Nat.one_pos).2
    rfl rfl (by decide) (by decide)

/-- C8 counterexample: with a 257-glyph ramp (256 times `a`, then `b`),
average brightness 255 and multiplier 1 select the glyph at index 255
(an `a`), not `ramp[N-1]` (the `b`). -/
theorem selectAsciiChar_endpoints_counterexample :
    brightBlock.sumBrightness / brightBlock.pixelCount = 255 ∧
    longRampSettings.brightness = 1 ∧
    longRampSettings.asciiChars ≠ [] ∧
    selectAsciiChar brightBlock longRampSettings = 'a' ∧
    longRampSettings.asciiChars.getD (longRampSettings.asciiChars.length - 1) ' ' = 'b' := by
  refine ⟨rfl, rfl, by decide, ?_, by decide⟩
  rw [selectAsciiChar_no_edge brightBlock longRampSettings rfl]
  have havg : brightBlock.sumBrightness / brightBlock.pixelCount = 255 := rfl
  have hbr : longRampSettings.brightness = 1 := rfl
  rw [havg, hbr, floor_natCast_mul_one, if_neg (by decide)]
  decide

/-- C4: the contrast stretch applies the same affine transform through the
clamped byte store to every byte of the RGBA data — the alpha channel is
treated exactly like the color channels — and on `alphaProbeBuf` the alpha
byte actually changes (10 becomes 26). -/
theorem autoBrightnessContrast_all_channels :
    (∀ (buf : PixelBuffer) (i : ℕ), i < buf.data.length →
      (autoBrightnessContrast buf).data.getD i 0 =
        toUint8Clamped ((buf.data.getD i 0 : ℚ) * alphaOf buf + betaOf buf)) ∧
    (autoBrightnessContrast alphaProbeBuf).data.getD 3 0 = 26 ∧
    alphaProbeBuf.data.getD 3 0 = 10 := by
  refine ⟨?_, ?_, by decide⟩
  · intro buf i hi
    simp only [autoBrightnessContrast]
    have hlen : i <
        (buf.data.map fun (v : ℕ) => toUint8Clamped ((v : ℚ) * alphaOf buf + betaOf buf)).length := by
      simpa using hi
    rw [List.getD_eq_getElem _ _ hlen, List.getElem_map, List.getD_eq_getElem _ _ hi]
  · have hg : rgbToGrayscale alphaProbeBuf = [100] := by
      simp only [rgbToGrayscale, alphaProbeBuf, grayVal_eq]
      decide
    have hmin : minGrayOf alphaProbeBuf = 0 := by
      simp only [minGrayOf, clipHistCountOf, totalMassOf, accumulatorOf, histogramOf, hg]
      decide
    have hmax : maxGrayOf alphaProbeBuf = 99 := by
      simp only [maxGrayOf, clipHistCountOf, totalMassOf, accumulatorOf, histogramOf, hg]
      decide
    have halpha : alphaOf alphaProbeBuf = 255/99 := by
      rw [alphaOf, hmin, hmax]
      norm_num
    have hbeta : betaOf alphaProbeBuf = 0 := by
      rw [betaOf, hmin, halpha]
      norm_num
    have hmap : (autoBrightnessContrast alphaProbeBuf).data.getD 3 0 =
        toUint8Clamped ((10 : ℚ) * alphaOf alphaProbeBuf + betaOf alphaProbeBuf) := by
      simp only [autoBrightnessContrast, alphaProbeBuf, List.map_cons, List.map_nil,
        List.getD_cons_succ, List.getD_cons_zero]
      norm_num
    rw [hmap, halpha, hbeta]
    have hval : (10 : ℚ) * (255/99) + 0 = 2550/99 := by norm_num
    have hclamp : max (0:ℚ) (min 255 (2550/99)) = 2550/99 := by
      rw [min_eq_right (by norm_num), max_eq_right (by norm_num)]
    have hfl : ⌊(2550/99 : ℚ)⌋ = 25 := by
      rw [Int.floor_eq_iff]
      norm_num
    simp only [toUint8Clamped, hval, hclamp, hfl]
    rw [if_pos (by norm_num)]
    decide

/-- C4 witness: the uniform-transform clause applied at byte 0 of the
probe buffer. -/
theorem autoBrightnessContrast_all_channels_witness :
    0 < alphaProbeBuf.data.length ∧
    (autoBrightnessContrast alphaProbeBuf).data.getD 0 0 =
      toUint8Clamped ((alphaProbeBuf.data.getD 0 0 : ℚ) * alphaOf alphaProbeBuf +
        betaOf alphaProbeBuf) :=
  ⟨by decide, autoBrightnessContrast_all_channels.1 alphaProbeBuf 0 (by decide)⟩

/-- C3: the code does not guard the degenerate histogram: on
`degenerateBuf` the clipped bounds collapse (`maxGray = minGray = 0`) and
`alpha = 255 / (maxGray - minGray)` is computed with a zero divisor (in
JavaScript, `Infinity`), with no `DegenerateHistogram` failure and no
clamping of alpha anywhere in the source. -/
theorem degenerateHistogram_unguarded :
    degenerateBuf.data.length = 4 * degenerateBuf.width * degenerateBuf.height ∧
    minGrayOf degenerateBuf = 0 ∧
    maxGrayOf degenerateBuf = 0 ∧
    ((maxGrayOf degenerateBuf : ℚ) - ((minGrayOf degenerateBuf : ℕ) : ℚ)) = 0 := by
  have hg : rgbToGrayscale degenerateBuf = [0, 1] := by
    simp only [rgbToGrayscale, degenerateBuf, grayVal_eq]
    decide
  have hmin : minGrayOf degenerateBuf = 0 := by
    simp only [minGrayOf, clipHistCountOf, totalMassOf, accumulatorOf, histogramOf, hg]
    decide
  have hmax : maxGrayOf degenerateBuf = 0 := by
    simp only [maxGrayOf, clipHistCountOf, totalMassOf, accumulatorOf, histogramOf, hg]
    decide
  refine ⟨by decide, hmin, hmax, ?_⟩
  rw [hmin, hmax]
  norm_num

/-- C1 (amended): the uniform black 16x16 image at blockSize 8 with the
default ramp and autoAdjust, color, detectEdges off produces exactly two
rows of two space characters (one glyph per 8x8 block), each row
terminated by a newline. -/
theorem scenarioA_output : (generate black16 scenarioASettings).1 = "  \n  \n" :=
  generate_black16_text

/-- C1 counterexample: the output is not two rows of eight spaces — a
16x16 image has only `16 / 8 = 2` blocks per row. -/
theorem scenarioA_output_ne_eight_wide :
    (generate black16 scenarioASettings).1 ≠ "        \n        \n" := by
  rw [generate_black16_text]
  decide
